import Mathlib

/-!
Verification development for the devslot slot-lifecycle engine.

The definitions below are a shallow embedding of the Go sources:
`internal/slot/slot.go` (slot manager), `internal/git/git.go` (worktree
driver and branch-name derivation), the hook runner (`Runner.Run`), and
the file lock (`FileLock.Acquire` / `FileLock.Release`).

Filesystem paths are modelled as cleaned component lists (`Path`), the
on-disk state as an association list from paths to nodes (`Fs`), and the
external world (git command outcomes, hook script outcomes) as an oracle
record (`GitEnv`).  Machine effects such as `os.RemoveAll` failing are
modelled through the oracle as well, so every operation is a pure
function from a state and an oracle to a result, a new state, a list of
warnings and a trace of git worktree-removal calls.
-/

namespace Devslot

/-- A cleaned absolute filesystem path, as a list of components. -/
abbrev Path := List String

/-- Split a character list on a separator character, keeping empty
pieces, with the semantics of Go's `strings.Split`. -/
def splitCharsOn (sep : Char) : List Char → List (List Char)
  | [] => [[]]
  | c :: cs =>
    let r := splitCharsOn sep cs
    if c = sep then [] :: r
    else
      match r with
      | [] => [[c]]
      | h :: t => (c :: h) :: t

/-- Split a string on `/` separators, dropping empty components
(models the separator handling inside Go's `filepath.Join`). -/
def splitSlashes (s : String) : List String :=
  ((splitCharsOn '/' s.data).map String.mk).filter (fun c => c ≠ "")

/-- Append components to a cleaned absolute path, resolving `.` and `..`
(models the `Clean` step of Go's `filepath.Join` for absolute bases). -/
def cleanAppend (base : Path) (comps : List String) : Path :=
  comps.foldl
    (fun acc c => if c = "." then acc else if c = ".." then acc.dropLast else acc ++ [c])
    base

/-- `joinPath base name` models Go's `filepath.Join(base, name)` where
`base` is already a cleaned absolute path. -/
def joinPath (base : Path) (name : String) : Path :=
  cleanAppend base (splitSlashes name)

/-- A filesystem node: a plain directory, a git worktree checked out on a
branch (worktrees are directories), or a non-directory file. -/
inductive Node
  | dir
  | worktree (branch : String)
  | file
deriving DecidableEq, Repr

/-- Is the node a directory entry (`entry.IsDir()` in Go)? -/
def Node.isDir : Node → Bool
  | .file => false
  | _ => true

/-- The filesystem: an association list of existing paths and their nodes. -/
abbrev Fs := List (Path × Node)

/-- `os.Stat` existence check. -/
def fsExists (fs : Fs) (p : Path) : Bool :=
  fs.any (fun e => e.1 = p)

/-- `os.MkdirAll` for the one directory the manager creates. -/
def mkdirAll (fs : Fs) (p : Path) : Fs :=
  if fsExists fs p then fs else fs ++ [(p, Node.dir)]

/-- `os.RemoveAll p`: delete `p` and everything below it. -/
def removeAllFs (fs : Fs) (p : Path) : Fs :=
  fs.filter (fun e => !(decide (p <+: e.1)))

/-- `os.ReadDir p`: the immediate children of `p`, as (name, node) pairs. -/
def childrenOf (fs : Fs) (p : Path) : List (String × Node) :=
  fs.filterMap
    (fun e =>
      if e.1.length = p.length + 1 ∧ p <+: e.1 then some (e.1.getLastD "", e.2) else none)

/-- Repository descriptor from `devslot.yaml` (`config.Repository`). -/
structure Repository where
  name : String
  url : String
deriving DecidableEq, Repr

/-- `Repository.BareRepoName`: the on-disk bare-repository directory name. -/
def Repository.bareRepoName (r : Repository) : String :=
  r.name ++ ".git"

/-- Loaded configuration (`config.Config`). -/
structure Config where
  version : Nat
  repositories : List Repository
deriving DecidableEq, Repr

/-! ### Branch-name derivation (`internal/git/git.go`) -/

/-- Characters allowed by the sanitization regex class `[a-z0-9\-_]`. -/
def isGoodChar (c : Char) : Bool :=
  (('a' ≤ c) && (c ≤ 'z')) || (('0' ≤ c) && (c ≤ '9')) || (c == '-') || (c == '_')

/-- The regex replacement `[^a-z0-9\-_]+` → `"-"`: each maximal run of
characters outside the class becomes a single hyphen.  The boolean flag
records whether the previous character was inside such a run. -/
def replaceBadRuns : Bool → List Char → List Char
  | _, [] => []
  | prevBad, c :: cs =>
    if isGoodChar c then c :: replaceBadRuns false cs
    else if prevBad then replaceBadRuns true cs
    else '-' :: replaceBadRuns true cs

/-- The regex replacement `-+` → `"-"`: each maximal run of hyphens
becomes a single hyphen.  The flag records whether the previous
character was a hyphen. -/
def collapseHyphenRuns : Bool → List Char → List Char
  | _, [] => []
  | prevHy, c :: cs =>
    if c = '-' then
      (if prevHy then collapseHyphenRuns true cs else '-' :: collapseHyphenRuns true cs)
    else c :: collapseHyphenRuns false cs

/-- Is the character trimmed by `strings.Trim(name, "-_")`? -/
def isTrimChar (c : Char) : Bool :=
  (c == '-') || (c == '_')

/-- `strings.Trim(name, "-_")` on a character list. -/
def trimEnds (l : List Char) : List Char :=
  ((l.dropWhile isTrimChar).reverse.dropWhile isTrimChar).reverse

/-- `git.SanitizeBranchComponent`: lower-case, replace runs of characters
outside `[a-z0-9\-_]` by single hyphens, collapse hyphen runs, trim
leading/trailing hyphens and underscores, and fall back to `"user"`
when the result is empty. -/
def SanitizeBranchComponent (s : String) : String :=
  let l0 := s.data.map Char.toLower
  let l1 := replaceBadRuns false l0
  let l2 := collapseHyphenRuns false l1
  let l3 := trimEnds l2
  if l3.isEmpty then "user" else String.mk l3

/-- `git.getGitEmailLocalPart`: empty when no email is configured,
otherwise the sanitized part of the email before the first `@`. -/
def getGitEmailLocalPart (email : String) : String :=
  if email = "" then ""
  else SanitizeBranchComponent (String.mk ((splitCharsOn '@' email.data).headD []))

/-- `git.GetBranchPrefix` as a pure function of its three external
inputs: the `DEVSLOT_BRANCH_PREFIX` environment variable, the
`devslot.branchPrefix` git-config value and the `user.email` git-config
value (each `""` when unset). -/
def GetBranchPrefix (envPrefix gitCfgPrefix email : String) : String :=
  if envPrefix ≠ "" then envPrefix
  else if gitCfgPrefix ≠ "" then gitCfgPrefix
  else
    let lp := getGitEmailLocalPart email
    if lp ≠ "" then "devslot/" ++ lp ++ "/"
    else "devslot/user/"

/-- One-pass run collapsing, parameterized by the class `q` of characters
that are turned into (and merged as) hyphens.  Used to state the spec's
description of sanitization independently of the two-regex pipeline the
code uses. -/
def canonRuns (q : Char → Bool) : Bool → List Char → List Char
  | _, [] => []
  | prevQ, c :: cs =>
    if q c then
      (if prevQ then canonRuns q true cs else '-' :: canonRuns q true cs)
    else c :: canonRuns q false cs

/-- Sanitization exactly as the claim words it: collapse each run of
characters outside `[a-z0-9\-_]` to a single hyphen (pre-existing hyphen
runs are untouched), trim, fall back when empty. -/
def sanitizeClaim (s : String) : String :=
  let l0 := s.data.map Char.toLower
  let l1 := canonRuns (fun c => !(isGoodChar c)) false l0
  let l2 := trimEnds l1
  if l2.isEmpty then "user" else String.mk l2

/-- Sanitization as amended: collapse each run of characters outside
`[a-z0-9_]` — hyphens included — to a single hyphen, trim, fall back
when empty. -/
def sanitizeAmended (s : String) : String :=
  let l0 := s.data.map Char.toLower
  let l1 := canonRuns (fun c => !(isGoodChar c) || (c == '-')) false l0
  let l2 := trimEnds l1
  if l2.isEmpty then "user" else String.mk l2

/-- The branch prefix exactly as the claim words it: the first applicable
of the environment override, the persisted setting, the sanitized local
part of the identity email itself, or the hard-coded fallback. -/
def prefixClaim (envPrefix gitCfgPrefix email : String) : String :=
  if envPrefix ≠ "" then envPrefix
  else if gitCfgPrefix ≠ "" then gitCfgPrefix
  else if email ≠ "" then sanitizeClaim (String.mk ((splitCharsOn '@' email.data).headD []))
  else "devslot/user/"

/-- The branch prefix as amended: the email-derived prefix is
`"devslot/" ++ sanitized-local-part ++ "/"` and the fallback is
`"devslot/user/"`, with sanitization as in `sanitizeAmended`. -/
def prefixAmended (envPrefix gitCfgPrefix email : String) : String :=
  if envPrefix ≠ "" then envPrefix
  else if gitCfgPrefix ≠ "" then gitCfgPrefix
  else if email ≠ "" then "devslot/" ++ sanitizeAmended (String.mk ((splitCharsOn '@' email.data).headD [])) ++ "/"
  else "devslot/user/"

/-! ### Lifecycle hook events and the manager-level view of hook runs -/

/-- Hook event names (`hook.Type`). -/
inductive HookType
  | postCreate
  | preDestroy
  | postDestroy
  | postReload
  | postInit
deriving DecidableEq, Repr

/-- The event name string of a hook type. -/
def HookType.eventName : HookType → String
  | .postCreate => "post-create"
  | .preDestroy => "pre-destroy"
  | .postDestroy => "post-destroy"
  | .postReload => "post-reload"
  | .postInit => "post-init"

/-- The outcome of the hook runner for one event, as the slot manager
observes it: no hook script installed, a script without the execute bit,
or a script that ran and exited zero / non-zero. -/
inductive HookResult
  | noHook
  | notExecutable
  | execOk
  | execFail
deriving DecidableEq, Repr

/-- Errors returned by the slot manager, mirroring the wrapping structure
of the Go error values (`internal/errors` and the `fmt.Errorf` wrappers
in `slot.go`).  A constructor carries exactly the information the
corresponding Go error message carries. -/
inductive DevErr
  | validation (msg : String)
  | slotAlreadyExists (name : String)
  | slotNotFound (name : String)
  | bareRepoMissing (repo : String)
  | worktreeFailed (repo : String)
  | hookNotExecutable (hook : String)
  | hookFailed (hook : String)
  | postCreateHookFailed (orig : DevErr)
  | postCreateHookFailedCleanupFailed (orig cleanup : DevErr)
  | preDestroyHookFailed (orig : DevErr)
  | removeSlotDirFailed
  | defaultBranchFailed (repo : String)
  | reloadWorktreeFailed (repo : String)
  | postReloadHookFailed (orig : DevErr)
deriving DecidableEq, Repr

/-- The oracle for everything external to the slot manager: results of
git invocations, hook script outcomes, the branch-prefix inputs, and
whether best-effort filesystem removals fail. -/
structure GitEnv where
  validRepo : Path → Bool
  worktreeAddOk : Path → Path → String → Bool
  hasRemoteOrigin : Path → Bool
  fetchOk : Path → Bool
  defaultBranch : Path → Option String
  removeWorktreeOk : Path → Path → Bool
  removeAllFails : Path → Bool
  hook : HookType → HookResult
  envBranchPrefixVar : String
  gitConfigPrefixVal : String
  userEmail : String

/-- The result of `Runner.Run` for an event, as `slot.go` consumes it. -/
def runHook (env : GitEnv) (t : HookType) : Except DevErr Unit :=
  match env.hook t with
  | .noHook => .ok ()
  | .execOk => .ok ()
  | .notExecutable => .error (.hookNotExecutable t.eventName)
  | .execFail => .error (.hookFailed t.eventName)

/-- Warnings printed to stderr by `Manager.Destroy`. -/
inductive Warning
  | removeWorktreeFailed (entry : String)
  | postDestroyHookFailed
deriving DecidableEq, Repr

/-- Trace of `git worktree remove` invocations issued by the manager. -/
inductive GitCall
  | removeWorktree (bare wt : Path)
deriving DecidableEq, Repr

instance instDecEqExcept {ε α : Type} [DecidableEq ε] [DecidableEq α] :
    DecidableEq (Except ε α) := fun a b =>
  match a, b with
  | .ok x, .ok y =>
    if h : x = y then .isTrue (by rw [h]) else .isFalse (fun hc => h (by injection hc))
  | .ok _, .error _ => .isFalse (fun hc => Except.noConfusion hc)
  | .error _, .ok _ => .isFalse (fun hc => Except.noConfusion hc)
  | .error x, .error y =>
    if h : x = y then .isTrue (by rw [h]) else .isFalse (fun hc => h (by injection hc))

/-- The observable outcome of one manager operation: its returned error
value, the resulting filesystem, the warnings printed, and the worktree
removal calls issued. -/
structure Out where
  res : Except DevErr Unit
  fs : Fs
  warnings : List Warning
  calls : List GitCall
deriving DecidableEq, Repr

/-- `Manager.validateSlotName`. -/
def validateSlotName (name : String) : Option String :=
  if name = "" then some "slot name cannot be empty"
  else if name.data.contains '/' || name.data.contains '\\' then
    some "slot name cannot contain path separators"
  else if name = "." || name = ".." then some "invalid slot name"
  else none

/-- `Manager.getSlotPath`. -/
def getSlotPath (root : Path) (name : String) : Path :=
  joinPath (root ++ ["slots"]) name

/-- Path of a repository's bare clone under `repos/`. -/
def bareRepoPathOf (root : Path) (r : Repository) : Path :=
  joinPath (root ++ ["repos"]) r.bareRepoName

/-- The automatically derived branch name for a slot
(`GetBranchPrefix() + slotName` in `CreateWorktreeWithFetch`). -/
def derivedBranch (env : GitEnv) (slotName : String) : String :=
  GetBranchPrefix env.envBranchPrefixVar env.gitConfigPrefixVal env.userEmail ++ slotName

/-- `git.CreateWorktree bare wt branch`: attach to `branch` if it exists,
else create it — in both cases the new worktree is on `branch`; `none`
when the git invocation fails. -/
def createWorktreeGit (env : GitEnv) (bare wt : Path) (branch : String) (fs : Fs) :
    Option Fs :=
  if env.worktreeAddOk bare wt branch then some (fs ++ [(wt, Node.worktree branch)]) else none

/-- `git.CreateWorktreeWithFetch bare wt slotName`: when a remote exists,
fetch and branch from the remote default branch; otherwise degrade to the
no-fetch variant branching from the local default branch.  Either way the
created worktree is on the derived branch; `none` on any failure (fetch
failure, no default branch, or worktree-add failure) — `Manager.Create`
wraps all of these uniformly. -/
def createWorktreeWithFetchGit (env : GitEnv) (bare wt : Path) (slotName : String)
    (fs : Fs) : Option Fs :=
  if env.hasRemoteOrigin bare then
    if !(env.fetchOk bare) then none
    else
      match env.defaultBranch bare with
      | none => none
      | some _ =>
        if env.worktreeAddOk bare wt (derivedBranch env slotName) then
          some (fs ++ [(wt, Node.worktree (derivedBranch env slotName))])
        else none
  else
    match env.defaultBranch bare with
    | none => none
    | some _ =>
      if env.worktreeAddOk bare wt (derivedBranch env slotName) then
        some (fs ++ [(wt, Node.worktree (derivedBranch env slotName))])
      else none

/-- The best-effort `os.RemoveAll(slotPath)` in `Manager.Create`'s
per-repository failure paths; the error, if any, is discarded. -/
def rollbackSlotDir (env : GitEnv) (slotPath : Path) (fs : Fs) : Fs :=
  if env.removeAllFails slotPath then fs else removeAllFs fs slotPath

/-- The worktree-creation step for one repository inside
`Manager.Create`'s loop: the explicit branch when `opts.Branch` is set,
the fetch-and-derive path otherwise. -/
def createOneWorktree (env : GitEnv) (bare wt : Path) (name branch : String)
    (fs : Fs) : Option Fs :=
  if branch ≠ "" then createWorktreeGit env bare wt branch fs
  else createWorktreeWithFetchGit env bare wt name fs

/-- The per-repository loop of `Manager.Create`: verify the bare
repository, then create the worktree (explicit branch when `branch ≠ ""`,
fetch-and-derive otherwise); on failure remove the slot directory
(best effort) and stop with the original error. -/
def createLoop (env : GitEnv) (root : Path) (name : String) (slotPath : Path)
    (branch : String) : List Repository → Fs → Except (DevErr × Fs) Fs
  | [], fs => .ok fs
  | r :: rest, fs =>
    let bare := bareRepoPathOf root r
    let wt := joinPath slotPath r.name
    if !(env.validRepo bare) then
      .error (.bareRepoMissing r.name, rollbackSlotDir env slotPath fs)
    else
      match createOneWorktree env bare wt name branch fs with
      | none => .error (.worktreeFailed r.name, rollbackSlotDir env slotPath fs)
      | some fs' => createLoop env root name slotPath branch rest fs'

/-- Resolution of a slot entry's bare repository in `Manager.Destroy`:
try `repos/<entry>.git`, fall back to the legacy `repos/<entry>`. -/
def resolveBare (env : GitEnv) (root : Path) (entry : String) : Path :=
  let p1 := joinPath (root ++ ["repos"]) (entry ++ ".git")
  if env.validRepo p1 then p1 else joinPath (root ++ ["repos"]) entry

/-- The per-entry removal loop of `Manager.Destroy`: for each directory
entry, resolve its bare repository (`<entry>.git` first, then the legacy
`<entry>`), and if that is a valid repository remove the worktree,
downgrading a removal failure to a warning.  Entries matching no valid
repository are skipped. -/
def destroyLoop (env : GitEnv) (root slotPath : Path) :
    List (String × Node) → Fs → Fs × List Warning × List GitCall
  | [], fs => (fs, [], [])
  | (entryName, node) :: rest, fs =>
    if node.isDir then
      let bare := resolveBare env root entryName
      let wt := joinPath slotPath entryName
      if env.validRepo bare then
        if env.removeWorktreeOk bare wt then
          let out := destroyLoop env root slotPath rest (removeAllFs fs wt)
          (out.1, out.2.1, .removeWorktree bare wt :: out.2.2)
        else
          let out := destroyLoop env root slotPath rest fs
          (out.1, .removeWorktreeFailed entryName :: out.2.1, .removeWorktree bare wt :: out.2.2)
      else destroyLoop env root slotPath rest fs
    else destroyLoop env root slotPath rest fs

/-- `Manager.Destroy`. -/
def destroyOp (env : GitEnv) (root : Path) (name : String) (_cfg : Config) (fs : Fs) :
    Out :=
  let slotPath := getSlotPath root name
  if !(fsExists fs slotPath) then ⟨.error (.slotNotFound name), fs, [], []⟩
  else
    match runHook env .preDestroy with
    | .error e => ⟨.error (.preDestroyHookFailed e), fs, [], []⟩
    | .ok _ =>
      let entries := childrenOf fs slotPath
      let step := destroyLoop env root slotPath entries fs
      if env.removeAllFails slotPath then
        ⟨.error .removeSlotDirFailed, step.1, step.2.1, step.2.2⟩
      else
        let fs2 := removeAllFs step.1 slotPath
        match runHook env .postDestroy with
        | .error _ => ⟨.ok (), fs2, step.2.1 ++ [.postDestroyHookFailed], step.2.2⟩
        | .ok _ => ⟨.ok (), fs2, step.2.1, step.2.2⟩

/-- `Manager.Create` (`opts.Branch` is `branch`, `""` meaning unset). -/
def createOp (env : GitEnv) (root : Path) (name : String) (cfg : Config)
    (branch : String) (fs : Fs) : Out :=
  match validateSlotName name with
  | some msg => ⟨.error (.validation msg), fs, [], []⟩
  | none =>
    let slotPath := getSlotPath root name
    if fsExists fs slotPath then ⟨.error (.slotAlreadyExists name), fs, [], []⟩
    else
      let fs0 := mkdirAll fs slotPath
      match createLoop env root name slotPath branch cfg.repositories fs0 with
      | .error ef => ⟨.error ef.1, ef.2, [], []⟩
      | .ok fs1 =>
        match runHook env .postCreate with
        | .ok _ => ⟨.ok (), fs1, [], []⟩
        | .error herr =>
          let d := destroyOp env root name cfg fs1
          match d.res with
          | .ok _ => ⟨.error (.postCreateHookFailed herr), d.fs, d.warnings, d.calls⟩
          | .error derr =>
            ⟨.error (.postCreateHookFailedCleanupFailed herr derr), d.fs, d.warnings, d.calls⟩

/-- The per-repository loop of `Manager.Reload`: create a worktree on the
default branch for each configured repository whose subdirectory is
missing under the slot. -/
def reloadLoop (env : GitEnv) (root slotPath : Path) :
    List Repository → Fs → Except (DevErr × Fs) Fs
  | [], fs => .ok fs
  | r :: rest, fs =>
    let bare := bareRepoPathOf root r
    let wt := joinPath slotPath r.name
    if fsExists fs wt then reloadLoop env root slotPath rest fs
    else
      match env.defaultBranch bare with
      | none => .error (.defaultBranchFailed r.name, fs)
      | some b =>
        if env.worktreeAddOk bare wt b then
          reloadLoop env root slotPath rest (fs ++ [(wt, Node.worktree b)])
        else .error (.reloadWorktreeFailed r.name, fs)

/-- `Manager.Reload`. -/
def reloadOp (env : GitEnv) (root : Path) (name : String) (cfg : Config) (fs : Fs) :
    Out :=
  let slotPath := getSlotPath root name
  if !(fsExists fs slotPath) then ⟨.error (.slotNotFound name), fs, [], []⟩
  else
    match reloadLoop env root slotPath cfg.repositories fs with
    | .error ef => ⟨.error ef.1, ef.2, [], []⟩
    | .ok fs1 =>
      match runHook env .postReload with
      | .error e => ⟨.error (.postReloadHookFailed e), fs1, [], []⟩
      | .ok _ => ⟨.ok (), fs1, [], []⟩

/-! ### The hook runner in detail (`Runner.Run`, `src/unnamed/part_028`) -/

/-- What `os.Stat(hooks/<event>)` reports: no file, an IO error, or a
file with the given permission bits. -/
inductive StatRes
  | notExist
  | statErr
  | found (perm : Nat)
deriving DecidableEq, Repr

/-- The runner's outcome classification. -/
inductive HookRunOutcome
  | success
  | statFailed
  | notExecutable
  | execFailed
deriving DecidableEq, Repr

/-- `Runner.Run` for one event: the result, paired with whether a child
process was executed at all. -/
def runnerRun (st : StatRes) (execOk : Bool) : HookRunOutcome × Bool :=
  match st with
  | .notExist => (.success, false)
  | .statErr => (.statFailed, false)
  | .found perm =>
    if perm &&& 0o111 == 0 then (.notExecutable, false)
    else if execOk then (.success, true) else (.execFailed, true)

/-! ### The file lock (`FileLock`, `src/unnamed/part_029`) -/

/-- The on-disk and OS-level state relevant to the lock: whether the lock
file exists, and whether some live process currently holds an OS-level
advisory lock on it (flock semantics).  The latter is tracked so that we
can state what `Acquire` should depend on; the implementation under
scrutiny never consults it. -/
structure LockState where
  fileOnDisk : Bool
  osLockHeld : Bool
deriving DecidableEq, Repr

/-- The in-process lock handle: whether `l.file` is non-nil. -/
structure FileLock where
  fileHandle : Bool
deriving DecidableEq, Repr

/-- Errors of `FileLock.Acquire` / `FileLock.Release`. -/
inductive LockErr
  | alreadyHeld
  | writeFailed
  | notHeld
  | removeFailed
deriving DecidableEq, Repr

/-- Outcome of one lock operation. -/
structure LockOut where
  res : Except LockErr Unit
  st : LockState
  lk : FileLock
deriving DecidableEq, Repr

/-- `FileLock.Acquire`: opens the lock file with
`O_CREATE|O_EXCL|O_WRONLY`, so it fails with the contention error
("lock is already held") whenever the file already exists on disk,
regardless of any OS-level lock; on success it writes PID/time info
(whose failure is an IO error with best-effort cleanup). -/
def fileLockAcquire (writeFails : Bool) (st : LockState) (lk : FileLock) : LockOut :=
  if st.fileOnDisk then ⟨.error .alreadyHeld, st, lk⟩
  else
    if writeFails then ⟨.error .writeFailed, { st with fileOnDisk := false }, lk⟩
    else ⟨.ok (), { st with fileOnDisk := true }, { lk with fileHandle := true }⟩

/-- `FileLock.Release`: errors with "lock not held" when `l.file` is nil,
otherwise closes the handle and removes the lock file. -/
def fileLockRelease (st : LockState) (lk : FileLock) : LockOut :=
  if !lk.fileHandle then ⟨.error .notHeld, st, lk⟩
  else
    if st.fileOnDisk then
      ⟨.ok (), { st with fileOnDisk := false }, { lk with fileHandle := false }⟩
    else ⟨.error .removeFailed, st, lk⟩

/-! ### Classification helpers and sample worlds used in the theorems -/

/-- Errors that `Manager.Create` can only return after the slot directory
was made: a missing bare repository, a worktree-creation failure, or a
post-create hook failure (with or without a cleanup failure). -/
def isPostMkdirErr : DevErr → Bool
  | .bareRepoMissing _ => true
  | .worktreeFailed _ => true
  | .postCreateHookFailed _ => true
  | .postCreateHookFailedCleanupFailed _ _ => true
  | _ => false

/-- A world where every external operation succeeds and no hook scripts
are installed. -/
def envAllOk : GitEnv where
  validRepo := fun _ => true
  worktreeAddOk := fun _ _ _ => true
  hasRemoteOrigin := fun _ => false
  fetchOk := fun _ => true
  defaultBranch := fun _ => some "main"
  removeWorktreeOk := fun _ _ => true
  removeAllFails := fun _ => false
  hook := fun _ => .noHook
  envBranchPrefixVar := "feature/"
  gitConfigPrefixVal := ""
  userEmail := ""

/-- A one-repository configuration. -/
def cfgAlpha : Config := ⟨1, [⟨"alpha", "https://example.com/alpha.git"⟩]⟩

/-- A two-repository configuration. -/
def cfgAlphaBeta : Config :=
  ⟨1, [⟨"alpha", "https://example.com/alpha.git"⟩, ⟨"beta", "https://example.com/beta.git"⟩]⟩

/-- A bare project root with empty `slots/` and `repos/`. -/
def fsProj : Fs := [(["proj"], .dir), (["proj", "slots"], .dir), (["proj", "repos"], .dir)]

/-- A project root with one (empty) slot `dev`. -/
def fsProjDev : Fs := fsProj ++ [(["proj", "slots", "dev"], .dir)]

/-! ## Helper lemmas -/

theorem fsExists_append (a b : Fs) (p : Path) :
    fsExists (a ++ b) p = (fsExists a p || fsExists b p) := by
  simp [fsExists, List.any_append]

theorem fsExists_removeAllFs_of_prefix (fs : Fs) (p q : Path) (h : p <+: q) :
    fsExists (removeAllFs fs p) q = false := by
  simp only [fsExists, removeAllFs, List.any_eq_false, List.mem_filter]
  rintro e ⟨-, hkeep⟩
  simp only [Bool.not_eq_true', decide_eq_false_iff_not] at hkeep
  simp only [decide_eq_true_eq]
  intro hq
  exact hkeep (hq ▸ h)

theorem fsExists_removeAllFs_self (fs : Fs) (p : Path) :
    fsExists (removeAllFs fs p) p = false :=
  fsExists_removeAllFs_of_prefix fs p p (List.prefix_refl p)

theorem mem_removeAllFs (fs : Fs) (p : Path) (x : Path × Node) (h : x ∈ removeAllFs fs p) :
    x ∈ fs := by
  simpa using (List.mem_filter.mp h).1

theorem fsExists_mkdirAll_self (fs : Fs) (p : Path) :
    fsExists (mkdirAll fs p) p = true := by
  unfold mkdirAll
  by_cases h : fsExists fs p
  · simp [h]
  · simp only [h, if_neg, Bool.false_eq_true, not_false_iff, if_false]
    simp [fsExists_append, fsExists]

theorem mem_mkdirAll (fs : Fs) (p : Path) (x : Path × Node) (h : x ∈ mkdirAll fs p) :
    x ∈ fs ∨ x = (p, Node.dir) := by
  unfold mkdirAll at h
  by_cases hc : fsExists fs p
  · simp [hc] at h; exact Or.inl h
  · simp [hc] at h
    rcases h with h | h
    · exact Or.inl h
    · exact Or.inr h

theorem joinPath_plain (base : Path) (s : String)
    (hsplit : splitSlashes s = [s]) (hdot : s ≠ ".") (hdd : s ≠ "..") :
    joinPath base s = base ++ [s] := by
  unfold joinPath
  rw [hsplit]
  simp [cleanAppend, hdot, hdd]

theorem getSlotPath_dotdot (root : Path) : getSlotPath root ".." = root := by
  unfold getSlotPath joinPath
  have hsplit : splitSlashes ".." = [".."] := by decide
  rw [hsplit]
  simp [cleanAppend]

theorem collapse_replace_eq_canon (l : List Char) : ∀ (b h : Bool), (b = true → h = true) →
    collapseHyphenRuns h (replaceBadRuns b l) =
      canonRuns (fun c => !(isGoodChar c) || (c == '-')) h l := by
  induction l with
  | nil => intro b h _; rfl
  | cons c cs ih =>
    intro b h hbh
    by_cases hg : isGoodChar c
    · by_cases hc : c = '-'
      · subst hc
        have hih := ih false true (fun hx => by cases hx)
        cases h <;>
          simp [replaceBadRuns, collapseHyphenRuns, canonRuns, hg, hih]
      · have hih := ih false false (fun hx => by cases hx)
        simp [replaceBadRuns, collapseHyphenRuns, canonRuns, hg, hc, hih]
    · have hcne : ¬ (c = '-') := by
        intro hx; subst hx; exact hg (by decide)
      have hih := ih true true (fun _ => rfl)
      cases b with
      | true =>
        have hh := hbh rfl; subst hh
        simp [replaceBadRuns, collapseHyphenRuns, canonRuns, hg, hcne, hih]
      | false =>
        cases h <;>
          simp [replaceBadRuns, collapseHyphenRuns, canonRuns, hg, hcne, hih]

theorem sanitize_eq_amended (s : String) : SanitizeBranchComponent s = sanitizeAmended s := by
  simp only [SanitizeBranchComponent, sanitizeAmended]
  rw [collapse_replace_eq_canon (s.data.map Char.toLower) false false (fun hx => by cases hx)]

theorem sanitize_ne_empty (s : String) : SanitizeBranchComponent s ≠ "" := by
  simp only [SanitizeBranchComponent]
  by_cases h3 :
      (trimEnds (collapseHyphenRuns false
        (replaceBadRuns false (s.data.map Char.toLower)))).isEmpty
  · simp [h3]
  · simp only [h3, Bool.false_eq_true, if_false]
    intro hc
    have hdata : trimEnds (collapseHyphenRuns false
        (replaceBadRuns false (s.data.map Char.toLower))) = [] :=
      congrArg String.data hc
    rw [hdata] at h3
    exact h3 rfl

theorem branchPrefix_eq_amended (e c m : String) :
    GetBranchPrefix e c m = prefixAmended e c m := by
  simp only [GetBranchPrefix, prefixAmended, getGitEmailLocalPart]
  by_cases he : e = ""
  · by_cases hcf : c = ""
    · by_cases hm : m = ""
      · simp [he, hcf, hm]
      · have hne : sanitizeAmended (String.mk ((splitCharsOn '@' m.data).head?.getD [])) ≠ "" := by
          rw [← sanitize_eq_amended]; exact sanitize_ne_empty _
        simp [he, hcf, hm, sanitize_eq_amended, hne]
    · simp [he, hcf]
  · simp [he]

theorem createWorktreeGit_some (env : GitEnv) (bare wt : Path) (branch : String)
    (fs fs2 : Fs) (h : createWorktreeGit env bare wt branch fs = some fs2) :
    fs2 = fs ++ [(wt, Node.worktree branch)] := by
  unfold createWorktreeGit at h
  split at h
  · exact (Option.some.injEq _ _ ▸ h).symm ▸ rfl
  · cases h

theorem createWorktreeWithFetchGit_some (env : GitEnv) (bare wt : Path) (name : String)
    (fs fs2 : Fs) (h : createWorktreeWithFetchGit env bare wt name fs = some fs2) :
    fs2 = fs ++ [(wt, Node.worktree (derivedBranch env name))] := by
  unfold createWorktreeWithFetchGit at h
  split at h
  · split at h
    · cases h
    · split at h
      · cases h
      · split at h
        · exact (Option.some.injEq _ _ ▸ h).symm ▸ rfl
        · cases h
  · split at h
    · cases h
    · split at h
      · exact (Option.some.injEq _ _ ▸ h).symm ▸ rfl
      · cases h

theorem createOneWorktree_some (env : GitEnv) (bare wt : Path) (name branch : String)
    (fs fs2 : Fs) (h : createOneWorktree env bare wt name branch fs = some fs2) :
    fs2 = fs ++ [(wt, Node.worktree (if branch ≠ "" then branch else derivedBranch env name))] := by
  unfold createOneWorktree at h
  by_cases hb : branch ≠ ""
  · rw [if_pos hb] at h
    rw [if_pos hb]
    exact createWorktreeGit_some env _ _ _ fs fs2 h
  · rw [if_neg hb] at h
    rw [if_neg hb]
    exact createWorktreeWithFetchGit_some env _ _ _ fs fs2 h

theorem createLoop_err_shape (env : GitEnv) (root : Path) (name : String) (slotPath : Path)
    (branch : String) : ∀ (repos : List Repository) (fs : Fs) (e : DevErr) (fs1 : Fs),
    createLoop env root name slotPath branch repos fs = .error (e, fs1) →
    ∃ fsx, fs1 = rollbackSlotDir env slotPath fsx := by
  intro repos
  induction repos with
  | nil => intro fs e fs1 h; cases h
  | cons r rest ih =>
    intro fs e fs1 h
    unfold createLoop at h
    simp only [] at h
    split at h
    · injection h with h'
      exact ⟨fs, (congrArg Prod.snd h').symm⟩
    · split at h
      · injection h with h'
        exact ⟨fs, (congrArg Prod.snd h').symm⟩
      · exact ih _ e fs1 h

theorem createLoop_ok_fsExists (env : GitEnv) (root : Path) (name : String) (slotPath : Path)
    (branch : String) : ∀ (repos : List Repository) (fs fs1 : Fs),
    createLoop env root name slotPath branch repos fs = .ok fs1 →
    ∀ p, fsExists fs p = true → fsExists fs1 p = true := by
  intro repos
  induction repos with
  | nil =>
    intro fs fs1 h p hp
    injection h with h'
    exact h' ▸ hp
  | cons r rest ih =>
    intro fs fs1 h p hp
    unfold createLoop at h
    simp only [] at h
    split at h
    · cases h
    · split at h
      · cases h
      · rename_i fs' hsome
        have hfs' := createOneWorktree_some env _ _ name branch fs fs' hsome
        refine ih fs' fs1 h p ?_
        rw [hfs', fsExists_append, hp, Bool.true_or]

theorem mem_rollbackSlotDir (env : GitEnv) (slotPath : Path) (fs : Fs) (x : Path × Node)
    (h : x ∈ rollbackSlotDir env slotPath fs) : x ∈ fs := by
  unfold rollbackSlotDir at h
  split at h
  · exact h
  · exact mem_removeAllFs fs slotPath x h

theorem createLoop_worktree_mem (env : GitEnv) (root : Path) (name : String)
    (slotPath : Path) : ∀ (repos : List Repository) (fsIn : Fs) (p : Path) (b : String),
    (p, Node.worktree b) ∈
      (match createLoop env root name slotPath "" repos fsIn with
       | .ok f => f
       | .error ef => ef.2) →
    (p, Node.worktree b) ∈ fsIn ∨ b = derivedBranch env name := by
  intro repos
  induction repos with
  | nil => intro fsIn p b h; exact Or.inl h
  | cons r rest ih =>
    intro fsIn p b hmem
    by_cases hval : env.validRepo (bareRepoPathOf root r)
    · cases hsome : createOneWorktree env (bareRepoPathOf root r)
        (joinPath slotPath r.name) name "" fsIn with
      | none =>
        have hstep : createLoop env root name slotPath "" (r :: rest) fsIn =
            .error (.worktreeFailed r.name, rollbackSlotDir env slotPath fsIn) := by
          conv_lhs => unfold createLoop
          simp [hval, hsome]
        rw [hstep] at hmem
        exact Or.inl (mem_rollbackSlotDir _ _ _ _ hmem)
      | some fs' =>
        have hstep : createLoop env root name slotPath "" (r :: rest) fsIn =
            createLoop env root name slotPath "" rest fs' := by
          conv_lhs => unfold createLoop
          simp [hval, hsome]
        rw [hstep] at hmem
        rcases ih fs' p b hmem with hin | hb
        · have hfs' := createOneWorktree_some env _ _ name "" fsIn fs' hsome
          rw [hfs'] at hin
          rcases List.mem_append.mp hin with hin | hin
          · exact Or.inl hin
          · right
            have hpair := List.mem_singleton.mp hin
            have h2 := congrArg Prod.snd hpair
            simp only [] at h2
            injection h2
        · exact Or.inr hb
    · have hstep : createLoop env root name slotPath "" (r :: rest) fsIn =
          .error (.bareRepoMissing r.name, rollbackSlotDir env slotPath fsIn) := by
        conv_lhs => unfold createLoop
        simp [hval]
      rw [hstep] at hmem
      exact Or.inl (mem_rollbackSlotDir _ _ _ _ hmem)

theorem destroyLoop_fs_subset (env : GitEnv) (root slotPath : Path) :
    ∀ (entries : List (String × Node)) (fs : Fs) (x : Path × Node),
    x ∈ (destroyLoop env root slotPath entries fs).1 → x ∈ fs := by
  intro entries
  induction entries with
  | nil => intro fs x h; exact h
  | cons en rest ih =>
    obtain ⟨s, n⟩ := en
    intro fs x h
    unfold destroyLoop at h
    simp only [] at h
    split at h
    · split at h
      · split at h
        · exact mem_removeAllFs _ _ _ (ih _ x h)
        · exact ih _ x h
      · exact ih _ x h
    · exact ih _ x h

theorem destroyLoop_warn_src (env : GitEnv) (root slotPath : Path) :
    ∀ (entries : List (String × Node)) (fs : Fs) (w : Warning),
    w ∈ (destroyLoop env root slotPath entries fs).2.1 →
    ∃ s, (∃ n, (s, n) ∈ entries) ∧ w = .removeWorktreeFailed s ∧
      env.validRepo (resolveBare env root s) = true := by
  intro entries
  induction entries with
  | nil => intro fs w h; cases h
  | cons en rest ih =>
    obtain ⟨s, n⟩ := en
    intro fs w h
    unfold destroyLoop at h
    simp only [] at h
    split at h
    · rename_i hdir
      split at h
      · rename_i hvalid
        split at h
        · rcases ih _ w h with ⟨s', hs', hw, hv⟩
          exact ⟨s', ⟨hs'.choose, List.mem_cons_of_mem _ hs'.choose_spec⟩, hw, hv⟩
        · rcases List.mem_cons.mp h with hw | h'
          · exact ⟨s, ⟨n, List.mem_cons_self _ _⟩, hw, hvalid⟩
          · rcases ih _ w h' with ⟨s', hs', hw, hv⟩
            exact ⟨s', ⟨hs'.choose, List.mem_cons_of_mem _ hs'.choose_spec⟩, hw, hv⟩
      · rcases ih _ w h with ⟨s', hs', hw, hv⟩
        exact ⟨s', ⟨hs'.choose, List.mem_cons_of_mem _ hs'.choose_spec⟩, hw, hv⟩
    · rcases ih _ w h with ⟨s', hs', hw, hv⟩
      exact ⟨s', ⟨hs'.choose, List.mem_cons_of_mem _ hs'.choose_spec⟩, hw, hv⟩

theorem destroyLoop_call_src (env : GitEnv) (root slotPath : Path) :
    ∀ (entries : List (String × Node)) (fs : Fs) (b wt : Path),
    GitCall.removeWorktree b wt ∈ (destroyLoop env root slotPath entries fs).2.2 →
    ∃ s, (∃ n, (s, n) ∈ entries) ∧ wt = joinPath slotPath s ∧
      env.validRepo (resolveBare env root s) = true := by
  intro entries
  induction entries with
  | nil => intro fs b wt h; cases h
  | cons en rest ih =>
    obtain ⟨s, n⟩ := en
    intro fs b wt h
    unfold destroyLoop at h
    simp only [] at h
    split at h
    · rename_i hdir
      split at h
      · rename_i hvalid
        split at h
        · rcases List.mem_cons.mp h with hc | h'
          · injection hc with h1 h2
            exact ⟨s, ⟨n, List.mem_cons_self _ _⟩, h2.symm ▸ rfl, hvalid⟩
          · rcases ih _ b wt h' with ⟨s', hs', hw, hv⟩
            exact ⟨s', ⟨hs'.choose, List.mem_cons_of_mem _ hs'.choose_spec⟩, hw, hv⟩
        · rcases List.mem_cons.mp h with hc | h'
          · injection hc with h1 h2
            exact ⟨s, ⟨n, List.mem_cons_self _ _⟩, h2.symm ▸ rfl, hvalid⟩
          · rcases ih _ b wt h' with ⟨s', hs', hw, hv⟩
            exact ⟨s', ⟨hs'.choose, List.mem_cons_of_mem _ hs'.choose_spec⟩, hw, hv⟩
      · rcases ih _ b wt h with ⟨s', hs', hw, hv⟩
        exact ⟨s', ⟨hs'.choose, List.mem_cons_of_mem _ hs'.choose_spec⟩, hw, hv⟩
    · rcases ih _ b wt h with ⟨s', hs', hw, hv⟩
      exact ⟨s', ⟨hs'.choose, List.mem_cons_of_mem _ hs'.choose_spec⟩, hw, hv⟩

theorem destroyOp_ok_shape (env : GitEnv) (root : Path) (name : String) (cfg : Config)
    (fs : Fs)
    (hex : fsExists fs (getSlotPath root name) = true)
    (hpd : runHook env .preDestroy = .ok ())
    (hrm : env.removeAllFails (getSlotPath root name) = false) :
    ∃ w2, (w2 = ([] : List Warning) ∨ w2 = [.postDestroyHookFailed]) ∧
      destroyOp env root name cfg fs =
        ⟨.ok (),
         removeAllFs (destroyLoop env root (getSlotPath root name)
           (childrenOf fs (getSlotPath root name)) fs).1 (getSlotPath root name),
         (destroyLoop env root (getSlotPath root name)
           (childrenOf fs (getSlotPath root name)) fs).2.1 ++ w2,
         (destroyLoop env root (getSlotPath root name)
           (childrenOf fs (getSlotPath root name)) fs).2.2⟩ := by
  cases hpost : runHook env .postDestroy with
  | ok u =>
    cases u
    refine ⟨[], Or.inl rfl, ?_⟩
    simp [destroyOp, hex, hpd, hrm, hpost]
  | error e =>
    refine ⟨[.postDestroyHookFailed], Or.inr rfl, ?_⟩
    simp [destroyOp, hex, hpd, hrm, hpost]

theorem destroyOp_fs_subset (env : GitEnv) (root : Path) (name : String) (cfg : Config)
    (fs : Fs) : ∀ x ∈ (destroyOp env root name cfg fs).fs, x ∈ fs := by
  intro x hx
  unfold destroyOp at hx
  simp only [] at hx
  split at hx
  · exact hx
  · split at hx
    · exact hx
    · split at hx
      · exact destroyLoop_fs_subset env root _ _ fs x hx
      · split at hx
        · exact destroyLoop_fs_subset env root _ _ fs x (mem_removeAllFs _ _ _ hx)
        · exact destroyLoop_fs_subset env root _ _ fs x (mem_removeAllFs _ _ _ hx)

theorem destroyOp_res_cases (env : GitEnv) (root : Path) (name : String) (cfg : Config)
    (fs : Fs) :
    (destroyOp env root name cfg fs).res = .ok () ∨
    (destroyOp env root name cfg fs).res = .error (.slotNotFound name) ∨
    (∃ e, (destroyOp env root name cfg fs).res = .error (.preDestroyHookFailed e)) ∨
    (destroyOp env root name cfg fs).res = .error .removeSlotDirFailed := by
  unfold destroyOp
  simp only []
  split
  · right; left; rfl
  · split
    · right; right; left; exact ⟨_, rfl⟩
    · split
      · right; right; right; rfl
      · split
        · left; rfl
        · left; rfl

theorem reloadLoop_cons (env : GitEnv) (root slotPath : Path) (r : Repository)
    (rest : List Repository) (fs : Fs) :
    reloadLoop env root slotPath (r :: rest) fs =
      if fsExists fs (joinPath slotPath r.name) then reloadLoop env root slotPath rest fs
      else
        match env.defaultBranch (bareRepoPathOf root r) with
        | none => .error (.defaultBranchFailed r.name, fs)
        | some b =>
          if env.worktreeAddOk (bareRepoPathOf root r) (joinPath slotPath r.name) b then
            reloadLoop env root slotPath rest
              (fs ++ [(joinPath slotPath r.name, Node.worktree b)])
          else .error (.reloadWorktreeFailed r.name, fs) := rfl

theorem reloadLoop_appends (env : GitEnv) (root slotPath : Path) :
    ∀ (repos : List Repository) (fs : Fs), ∃ extra,
      (match reloadLoop env root slotPath repos fs with
       | .ok f => f
       | .error ef => ef.2) = fs ++ extra := by
  intro repos
  induction repos with
  | nil => intro fs; exact ⟨[], by simp [reloadLoop]⟩
  | cons r rest ih =>
    intro fs
    rw [reloadLoop_cons]
    by_cases hex : fsExists fs (joinPath slotPath r.name) = true
    · rw [if_pos hex]; exact ih fs
    · rw [if_neg (by simpa using hex)]
      cases hdb : env.defaultBranch (bareRepoPathOf root r) with
      | none => exact ⟨[], by simp⟩
      | some b =>
        dsimp only
        by_cases hadd : env.worktreeAddOk (bareRepoPathOf root r) (joinPath slotPath r.name) b
        · rw [if_pos hadd]
          obtain ⟨extra, hx⟩ := ih (fs ++ [(joinPath slotPath r.name, Node.worktree b)])
          exact ⟨[(joinPath slotPath r.name, Node.worktree b)] ++ extra,
            by rw [hx, List.append_assoc]⟩
        · rw [if_neg hadd]; exact ⟨[], by simp⟩

theorem reloadLoop_err_kind (env : GitEnv) (root slotPath : Path) :
    ∀ (repos : List Repository) (fs : Fs) (e : DevErr) (fs1 : Fs),
    reloadLoop env root slotPath repos fs = .error (e, fs1) →
    (∃ r, e = .defaultBranchFailed r) ∨ (∃ r, e = .reloadWorktreeFailed r) := by
  intro repos
  induction repos with
  | nil => intro fs e fs1 h; cases h
  | cons r rest ih =>
    intro fs e fs1 h
    rw [reloadLoop_cons] at h
    by_cases hex : fsExists fs (joinPath slotPath r.name) = true
    · rw [if_pos hex] at h; exact ih fs e fs1 h
    · rw [if_neg (by simpa using hex)] at h
      cases hdb : env.defaultBranch (bareRepoPathOf root r) with
      | none =>
        rw [hdb] at h
        injection h with h'
        exact Or.inl ⟨r.name, (congrArg Prod.fst h').symm⟩
      | some b =>
        rw [hdb] at h
        dsimp only at h
        by_cases hadd : env.worktreeAddOk (bareRepoPathOf root r) (joinPath slotPath r.name) b
        · rw [if_pos hadd] at h; exact ih _ e fs1 h
        · rw [if_neg hadd] at h
          injection h with h'
          exact Or.inr ⟨r.name, (congrArg Prod.fst h').symm⟩

theorem reloadLoop_ok_eq (env : GitEnv) (root slotPath : Path) :
    ∀ (repos : List Repository) (fsOrig added : Fs),
    (∀ r ∈ repos, splitSlashes r.name = [r.name] ∧ r.name ≠ "." ∧ r.name ≠ "..") →
    (repos.map (fun r => r.name)).Nodup →
    (∀ r ∈ repos, ∀ n, (slotPath ++ [r.name], n) ∉ added) →
    ∀ fs1, reloadLoop env root slotPath repos (fsOrig ++ added) = .ok fs1 →
    fs1 = fsOrig ++ added ++
      (repos.filter (fun r => !(fsExists fsOrig (slotPath ++ [r.name])))).map
        (fun r => (slotPath ++ [r.name],
          Node.worktree ((env.defaultBranch (bareRepoPathOf root r)).getD ""))) := by
  intro repos
  induction repos with
  | nil =>
    intro fsOrig added _ _ _ fs1 h
    injection h with h'
    simp [← h']
  | cons r rest ih =>
    intro fsOrig added hplain hnodup hdisj fs1 h
    have hrplain := hplain r (List.mem_cons_self _ _)
    have hwt : joinPath slotPath r.name = slotPath ++ [r.name] :=
      joinPath_plain _ _ hrplain.1 hrplain.2.1 hrplain.2.2
    rw [reloadLoop_cons, hwt] at h
    have hexadd : fsExists added (slotPath ++ [r.name]) = false := by
      simp only [fsExists, List.any_eq_false, decide_eq_true_eq]
      intro e he hq
      refine hdisj r (List.mem_cons_self _ _) e.2 ?_
      rw [← hq]
      exact he
    have hexeq : fsExists (fsOrig ++ added) (slotPath ++ [r.name])
        = fsExists fsOrig (slotPath ++ [r.name]) := by
      rw [fsExists_append, hexadd, Bool.or_false]
    rw [hexeq] at h
    have hplain' := fun x hx => hplain x (List.mem_cons_of_mem _ hx)
    rw [List.map_cons] at hnodup
    obtain ⟨hnm0, hnodup'⟩ := List.nodup_cons.mp hnodup
    have hnm : r.name ∉ rest.map (fun r => r.name) := hnm0
    by_cases hex : fsExists fsOrig (slotPath ++ [r.name]) = true
    · rw [if_pos hex] at h
      have heq := ih fsOrig added hplain' hnodup'
        (fun x hx n => hdisj x (List.mem_cons_of_mem _ hx) n) fs1 h
      rw [heq, List.filter_cons]
      simp [hex]
    · have hexb : fsExists fsOrig (slotPath ++ [r.name]) = false := by
        simpa using hex
      rw [if_neg (by simp [hexb])] at h
      cases hdb : env.defaultBranch (bareRepoPathOf root r) with
      | none => rw [hdb] at h; cases h
      | some bch =>
        rw [hdb] at h
        dsimp only at h
        by_cases hadd : env.worktreeAddOk (bareRepoPathOf root r) (slotPath ++ [r.name]) bch
        · rw [if_pos hadd] at h
          rw [List.append_assoc] at h
          have hdisj' : ∀ x ∈ rest, ∀ n,
              (slotPath ++ [x.name], n) ∉
                added ++ [(slotPath ++ [r.name], Node.worktree bch)] := by
            intro x hx n hmem
            rcases List.mem_append.mp hmem with hm | hm
            · exact hdisj x (List.mem_cons_of_mem _ hx) n hm
            · have hpr := List.mem_singleton.mp hm
              have hfst := congrArg Prod.fst hpr
              simp only [] at hfst
              have hname : x.name = r.name := by
                have h1 := List.append_cancel_left hfst
                injection h1
              exact hnm (hname ▸ List.mem_map_of_mem (fun r => r.name) hx)
          have heq := ih fsOrig (added ++ [(slotPath ++ [r.name], Node.worktree bch)])
            hplain' hnodup' hdisj' fs1 h
          rw [heq, List.filter_cons]
          simp only [hexb, Bool.not_false, if_pos]
          rw [List.map_cons, hdb]
          simp [List.append_assoc]
        · rw [if_neg hadd] at h; cases h

theorem reloadLoop_env_indep (env : GitEnv) (f h' : Path → Bool) (a b c : String)
    (root slotPath : Path) : ∀ (repos : List Repository) (fs : Fs),
    reloadLoop
        { env with
            fetchOk := f
            hasRemoteOrigin := h'
            envBranchPrefixVar := a
            gitConfigPrefixVal := b
            userEmail := c }
        root slotPath repos fs =
      reloadLoop env root slotPath repos fs := by
  intro repos
  induction repos with
  | nil => intro fs; rfl
  | cons r rest ih =>
    intro fs
    rw [reloadLoop_cons, reloadLoop_cons]
    dsimp only
    by_cases hex : fsExists fs (joinPath slotPath r.name) = true
    · rw [if_pos hex, if_pos hex, ih]
    · rw [if_neg (by simpa using hex), if_neg (by simpa using hex)]
      cases hdb : env.defaultBranch (bareRepoPathOf root r) with
      | none => rfl
      | some bch =>
        dsimp only
        by_cases hadd : env.worktreeAddOk (bareRepoPathOf root r) (joinPath slotPath r.name) bch
        · rw [if_pos hadd, if_pos hadd, ih]
        · rw [if_neg hadd, if_neg hadd]

theorem reloadOp_env_indep (env : GitEnv) (f h' : Path → Bool) (a b c : String)
    (root : Path) (name : String) (cfg : Config) (fs : Fs) :
    reloadOp
        { env with
            fetchOk := f
            hasRemoteOrigin := h'
            envBranchPrefixVar := a
            gitConfigPrefixVal := b
            userEmail := c }
        root name cfg fs =
      reloadOp env root name cfg fs := by
  unfold reloadOp
  dsimp only
  rw [reloadLoop_env_indep]
  rfl

theorem reloadOp_fs_eq (env : GitEnv) (root : Path) (name : String) (cfg : Config)
    (fs : Fs) (hex : fsExists fs (getSlotPath root name) = true) :
    (reloadOp env root name cfg fs).fs =
      (match reloadLoop env root (getSlotPath root name) cfg.repositories fs with
       | .ok f => f
       | .error ef => ef.2) := by
  unfold reloadOp
  simp only [hex, Bool.not_true, Bool.false_eq_true, if_false]
  cases hloop : reloadLoop env root (getSlotPath root name) cfg.repositories fs with
  | error ef => rfl
  | ok fs1 =>
    cases hpost : runHook env .postReload with
    | error e => rfl
    | ok u => rfl

theorem reloadOp_res_cases (env : GitEnv) (root : Path) (name : String) (cfg : Config)
    (fs : Fs) :
    (reloadOp env root name cfg fs).res = .ok () ∨
    (reloadOp env root name cfg fs).res = .error (.slotNotFound name) ∨
    (∃ r, (reloadOp env root name cfg fs).res = .error (.defaultBranchFailed r)) ∨
    (∃ r, (reloadOp env root name cfg fs).res = .error (.reloadWorktreeFailed r)) ∨
    (∃ e, (reloadOp env root name cfg fs).res = .error (.postReloadHookFailed e)) := by
  unfold reloadOp
  simp only []
  by_cases hex : fsExists fs (getSlotPath root name) = true
  · simp only [hex, Bool.not_true, Bool.false_eq_true, if_false]
    cases hloop : reloadLoop env root (getSlotPath root name) cfg.repositories fs with
    | error ef =>
      obtain ⟨e, fs1⟩ := ef
      rcases reloadLoop_err_kind env root (getSlotPath root name) cfg.repositories fs
          e fs1 hloop with ⟨r, hr⟩ | ⟨r, hr⟩
      · right; right; left; exact ⟨r, by simp [hr]⟩
      · right; right; right; left; exact ⟨r, by simp [hr]⟩
    | ok fs1 =>
      cases hpost : runHook env .postReload with
      | error e => right; right; right; right; exact ⟨e, rfl⟩
      | ok u => cases u; left; rfl
  · have hexb : fsExists fs (getSlotPath root name) = false := by simpa using hex
    refine Or.inr (Or.inl ?_)
    simp only [hexb, Bool.not_false, if_true]

theorem createOp_invalid_name (env : GitEnv) (root : Path) (name : String) (cfg : Config)
    (branch : String) (fs : Fs) (msg : String) (h : validateSlotName name = some msg) :
    createOp env root name cfg branch fs = ⟨.error (.validation msg), fs, [], []⟩ := by
  unfold createOp
  rw [h]

theorem createOp_already (env : GitEnv) (root : Path) (name : String) (cfg : Config)
    (branch : String) (fs : Fs)
    (hv : validateSlotName name = none)
    (hex : fsExists fs (getSlotPath root name) = true) :
    createOp env root name cfg branch fs = ⟨.error (.slotAlreadyExists name), fs, [], []⟩ := by
  unfold createOp
  rw [hv]
  simp only [hex, if_true]

theorem createOp_loop_err (env : GitEnv) (root : Path) (name : String) (cfg : Config)
    (branch : String) (fs : Fs) (e : DevErr) (fs1 : Fs)
    (hv : validateSlotName name = none)
    (hex : fsExists fs (getSlotPath root name) = false)
    (hloop : createLoop env root name (getSlotPath root name) branch cfg.repositories
      (mkdirAll fs (getSlotPath root name)) = .error (e, fs1)) :
    createOp env root name cfg branch fs = ⟨.error e, fs1, [], []⟩ := by
  unfold createOp
  rw [hv]
  simp only [hex, Bool.false_eq_true, if_false]
  rw [hloop]

theorem createOp_hook_ok (env : GitEnv) (root : Path) (name : String) (cfg : Config)
    (branch : String) (fs fs1 : Fs)
    (hv : validateSlotName name = none)
    (hex : fsExists fs (getSlotPath root name) = false)
    (hloop : createLoop env root name (getSlotPath root name) branch cfg.repositories
      (mkdirAll fs (getSlotPath root name)) = .ok fs1)
    (hpc : runHook env .postCreate = .ok ()) :
    createOp env root name cfg branch fs = ⟨.ok (), fs1, [], []⟩ := by
  unfold createOp
  rw [hv]
  simp only [hex, Bool.false_eq_true, if_false]
  rw [hloop, hpc]

theorem createOp_hook_fail_fs (env : GitEnv) (root : Path) (name : String) (cfg : Config)
    (branch : String) (fs fs1 : Fs) (herr : DevErr)
    (hv : validateSlotName name = none)
    (hex : fsExists fs (getSlotPath root name) = false)
    (hloop : createLoop env root name (getSlotPath root name) branch cfg.repositories
      (mkdirAll fs (getSlotPath root name)) = .ok fs1)
    (hpc : runHook env .postCreate = .error herr) :
    (createOp env root name cfg branch fs).fs = (destroyOp env root name cfg fs1).fs := by
  unfold createOp
  rw [hv]
  simp only [hex, Bool.false_eq_true, if_false]
  rw [hloop, hpc]
  simp only []
  cases hd : (destroyOp env root name cfg fs1).res <;> rfl

theorem createOp_hook_fail_cleanup_ok (env : GitEnv) (root : Path) (name : String)
    (cfg : Config) (branch : String) (fs fs1 : Fs) (herr : DevErr)
    (hv : validateSlotName name = none)
    (hex : fsExists fs (getSlotPath root name) = false)
    (hloop : createLoop env root name (getSlotPath root name) branch cfg.repositories
      (mkdirAll fs (getSlotPath root name)) = .ok fs1)
    (hpc : runHook env .postCreate = .error herr)
    (hd : (destroyOp env root name cfg fs1).res = .ok ()) :
    (createOp env root name cfg branch fs).res = .error (.postCreateHookFailed herr) ∧
    (createOp env root name cfg branch fs).fs = (destroyOp env root name cfg fs1).fs := by
  unfold createOp
  rw [hv]
  simp only [hex, Bool.false_eq_true, if_false]
  rw [hloop, hpc]
  simp only []
  rw [hd]
  exact ⟨rfl, rfl⟩

theorem createOp_hook_fail_cleanup_fail (env : GitEnv) (root : Path) (name : String)
    (cfg : Config) (branch : String) (fs fs1 : Fs) (herr derr : DevErr)
    (hv : validateSlotName name = none)
    (hex : fsExists fs (getSlotPath root name) = false)
    (hloop : createLoop env root name (getSlotPath root name) branch cfg.repositories
      (mkdirAll fs (getSlotPath root name)) = .ok fs1)
    (hpc : runHook env .postCreate = .error herr)
    (hd : (destroyOp env root name cfg fs1).res = .error derr) :
    (createOp env root name cfg branch fs).res =
      .error (.postCreateHookFailedCleanupFailed herr derr) := by
  unfold createOp
  rw [hv]
  simp only [hex, Bool.false_eq_true, if_false]
  rw [hloop, hpc]
  simp only []
  rw [hd]

/-! ## Claim theorems -/

/-- Claim C1, counterexample: when the post-create hook fails and the
pre-destroy hook (run by the internal cleanup `Destroy`) also fails,
`create` returns an error yet the slot directory `slots/dev` still
exists — so the claim "no partially-created slot is left behind" is
false as stated. -/
theorem claim1_counterexample :
    ((createOp { envAllOk with hook := fun _ => .execFail }
        ["proj"] "dev" cfgAlpha "" fsProj).res
      = .error (.postCreateHookFailedCleanupFailed (.hookFailed "post-create")
          (.preDestroyHookFailed (.hookFailed "pre-destroy")))) ∧
    fsExists ((createOp { envAllOk with hook := fun _ => .execFail }
        ["proj"] "dev" cfgAlpha "" fsProj).fs)
      ["proj", "slots", "dev"] = true := by decide

/-- Claim C1 (amended): if `create` returns an error of a kind that can
only occur after the slot directory was made (missing bare repository,
worktree failure, or post-create hook failure), then — provided the
best-effort cleanup succeeds, i.e. directory removal never fails and the
pre-destroy hook run by the cleanup `Destroy` succeeds — the slot
directory `slots/<name>` does not exist when `create` returns. -/
theorem claim1_create_rollback (env : GitEnv) (root : Path) (name : String) (cfg : Config)
    (branch : String) (fs : Fs) (e : DevErr)
    (hrm : ∀ p, env.removeAllFails p = false)
    (hpd : runHook env .preDestroy = .ok ())
    (hres : (createOp env root name cfg branch fs).res = .error e)
    (hkind : isPostMkdirErr e = true) :
    fsExists (createOp env root name cfg branch fs).fs (getSlotPath root name) = false := by
  cases hv : validateSlotName name with
  | some msg =>
    rw [createOp_invalid_name env root name cfg branch fs msg hv] at hres
    simp only [] at hres
    injection hres with he
    rw [← he] at hkind
    simp [isPostMkdirErr] at hkind
  | none =>
    by_cases hex : fsExists fs (getSlotPath root name) = true
    · rw [createOp_already env root name cfg branch fs hv hex] at hres
      simp only [] at hres
      injection hres with he
      rw [← he] at hkind
      simp [isPostMkdirErr] at hkind
    · have hexf : fsExists fs (getSlotPath root name) = false := by simpa using hex
      cases hloop : createLoop env root name (getSlotPath root name) branch cfg.repositories
          (mkdirAll fs (getSlotPath root name)) with
      | error ef =>
        obtain ⟨e', fs1⟩ := ef
        rw [createOp_loop_err env root name cfg branch fs e' fs1 hv hexf hloop]
        obtain ⟨fsx, hfx⟩ := createLoop_err_shape env root name (getSlotPath root name)
          branch cfg.repositories (mkdirAll fs (getSlotPath root name)) e' fs1 hloop
        simp only []
        rw [hfx]
        unfold rollbackSlotDir
        rw [hrm (getSlotPath root name)]
        simp only [Bool.false_eq_true, if_false]
        exact fsExists_removeAllFs_self fsx _
      | ok fs1 =>
        cases hpc : runHook env .postCreate with
        | ok u =>
          cases u
          rw [createOp_hook_ok env root name cfg branch fs fs1 hv hexf hloop hpc] at hres
          simp only [] at hres
          cases hres
        | error herr =>
          have hslot : fsExists fs1 (getSlotPath root name) = true :=
            createLoop_ok_fsExists env root name (getSlotPath root name) branch
              cfg.repositories (mkdirAll fs (getSlotPath root name)) fs1 hloop
              (getSlotPath root name) (fsExists_mkdirAll_self fs (getSlotPath root name))
          obtain ⟨w2, hw2, hdeq⟩ := destroyOp_ok_shape env root name cfg fs1 hslot hpd
            (hrm (getSlotPath root name))
          have hfs := createOp_hook_fail_fs env root name cfg branch fs fs1 herr
            hv hexf hloop hpc
          rw [hfs, hdeq]
          simp only []
          exact fsExists_removeAllFs_self _ _

/-- Claim C1, witness: a concrete world where the post-create hook fails,
cleanup succeeds, and the slot directory is indeed absent afterwards. -/
theorem claim1_witness :
    ((createOp
        { envAllOk with
            hook := fun t => match t with | .postCreate => .execFail | _ => .noHook }
        ["proj"] "dev" cfgAlpha "" fsProj).res
      = .error (.postCreateHookFailed (.hookFailed "post-create"))) ∧
    fsExists ((createOp
        { envAllOk with
            hook := fun t => match t with | .postCreate => .execFail | _ => .noHook }
        ["proj"] "dev" cfgAlpha "" fsProj).fs) (getSlotPath ["proj"] "dev") = false :=
  ⟨by decide,
   claim1_create_rollback _ ["proj"] "dev" cfgAlpha "" fsProj
     (.postCreateHookFailed (.hookFailed "post-create"))
     (fun _ => rfl) rfl (by decide) rfl⟩

/-- Claim C2, counterexample: `destroy` called with the slot name `".."`
is not rejected: it resolves `slots/..` to the project root itself,
succeeds, and deletes the entire project root — so the claim that every
lifecycle operation rejects such names before any side effect is false
for `destroy` (and `reload`, which performs the same name handling). -/
theorem claim2_counterexample :
    ((destroyOp { envAllOk with validRepo := fun _ => false }
        ["proj"] ".." cfgAlpha fsProjDev).res = .ok ()) ∧
    (destroyOp { envAllOk with validRepo := fun _ => false }
        ["proj"] ".." cfgAlpha fsProjDev).fs = [] := by decide

/-- Claim C2 (amended): only `create` validates the slot name — it
rejects, before any side effect, a name that is empty, contains a path
separator, or equals `.` or `..`; `destroy` and `reload` perform no such
validation (they can only fail with not-found, hook, or removal errors),
and an unvalidated `".."` resolves to the project root itself, outside
`slots/`. -/
theorem claim2_validation :
    (∀ (env : GitEnv) (root : Path) (name : String) (cfg : Config) (branch : String)
       (fs : Fs) (msg : String), validateSlotName name = some msg →
       createOp env root name cfg branch fs = ⟨.error (.validation msg), fs, [], []⟩) ∧
    (∀ root : Path, getSlotPath root ".." = root) ∧
    (∀ (env : GitEnv) (root : Path) (name : String) (cfg : Config) (fs : Fs)
       (msg : String), (destroyOp env root name cfg fs).res ≠ .error (.validation msg)) ∧
    (∀ (env : GitEnv) (root : Path) (name : String) (cfg : Config) (fs : Fs)
       (msg : String), (reloadOp env root name cfg fs).res ≠ .error (.validation msg)) := by
  refine ⟨fun env root name cfg branch fs msg h =>
      createOp_invalid_name env root name cfg branch fs msg h,
    getSlotPath_dotdot, ?_, ?_⟩
  · intro env root name cfg fs msg h
    rcases destroyOp_res_cases env root name cfg fs with h1 | h1 | ⟨e, h1⟩ | h1 <;>
      rw [h1] at h <;> simp at h
  · intro env root name cfg fs msg h
    rcases reloadOp_res_cases env root name cfg fs with
        h1 | h1 | ⟨r, h1⟩ | ⟨r, h1⟩ | ⟨e, h1⟩ <;>
      rw [h1] at h <;> simp at h

/-- Claim C2, witness: `create` with the name `"a/b"` fails with the
validation error and leaves the filesystem untouched. -/
theorem claim2_witness :
    createOp envAllOk ["proj"] "a/b" cfgAlpha "" fsProj =
      ⟨.error (.validation "slot name cannot contain path separators"), fsProj, [], []⟩ ∧
    getSlotPath ["proj"] ".." = ["proj"] :=
  ⟨claim2_validation.1 envAllOk ["proj"] "a/b" cfgAlpha "" fsProj
      "slot name cannot contain path separators" (by decide),
   claim2_validation.2.1 ["proj"]⟩

/-- Claim C3: `FileLock.Acquire` opens the lock file with
`O_CREATE|O_EXCL`, so contention is judged by mere file existence, not by
OS-level lock state: with a stale lock file left by a dead process (no
live OS-level holder) it reports "lock is already held", and with no file
it succeeds even if an OS-level lock were held — contradicting the spec
and the repository's own tests, which demand `flock` semantics. -/
theorem claim3_lock_uses_file_existence :
    fileLockAcquire false ⟨true, false⟩ ⟨false⟩
      = ⟨.error .alreadyHeld, ⟨true, false⟩, ⟨false⟩⟩ ∧
    (fileLockAcquire false ⟨true, false⟩ ⟨false⟩).res
      = (fileLockAcquire false ⟨true, true⟩ ⟨false⟩).res ∧
    (fileLockAcquire false ⟨false, true⟩ ⟨false⟩).res = .ok () := by decide

/-- Claim C4: `FileLock.Release` is not idempotent — after a successful
acquire and release, a second `Release` returns the error "lock not
held" instead of succeeding, contradicting the `lock_test.go` test
"multiple unlock calls are safe". -/
theorem claim4_release_not_idempotent :
    ((fileLockAcquire false ⟨false, false⟩ ⟨false⟩).res = .ok ()) ∧
    ((fileLockRelease (fileLockAcquire false ⟨false, false⟩ ⟨false⟩).st
        (fileLockAcquire false ⟨false, false⟩ ⟨false⟩).lk).res = .ok ()) ∧
    ((fileLockRelease
        (fileLockRelease (fileLockAcquire false ⟨false, false⟩ ⟨false⟩).st
          (fileLockAcquire false ⟨false, false⟩ ⟨false⟩).lk).st
        (fileLockRelease (fileLockAcquire false ⟨false, false⟩ ⟨false⟩).st
          (fileLockAcquire false ⟨false, false⟩ ⟨false⟩).lk).lk).res
      = .error .notHeld) := by decide

/-- Claim C5, counterexample: when a worktree creation fails and the
best-effort rollback removal also fails, `create` returns only the
original `WorktreeFailed` error — the rollback failure is silently
discarded (and the slot directory is left behind), so the claim that
the rollback failure is always appended to the error is false. -/
theorem claim5_counterexample :
    ((createOp
        { envAllOk with
            worktreeAddOk := fun _ _ _ => false
            removeAllFails := fun _ => true }
        ["proj"] "dev" cfgAlpha "" fsProj).res = .error (.worktreeFailed "alpha")) ∧
    fsExists ((createOp
        { envAllOk with
            worktreeAddOk := fun _ _ _ => false
            removeAllFails := fun _ => true }
        ["proj"] "dev" cfgAlpha "" fsProj).fs) ["proj", "slots", "dev"] = true := by decide

/-- Claim C5 (amended): the rollback failure is reported together with
the original error only on the post-create-hook failure path (where the
cleanup runs through `Destroy` and a cleanup error is appended to the
hook error); on the bare-repository-missing and worktree-failure paths
the result is exactly the original loop error, so a failure of the
best-effort `os.RemoveAll` rollback there is silently discarded. -/
theorem claim5_rollback_error_reporting :
    (∀ (env : GitEnv) (root : Path) (name : String) (cfg : Config) (branch : String)
       (fs : Fs) (e : DevErr) (fs1 : Fs),
       validateSlotName name = none →
       fsExists fs (getSlotPath root name) = false →
       createLoop env root name (getSlotPath root name) branch cfg.repositories
         (mkdirAll fs (getSlotPath root name)) = .error (e, fs1) →
       createOp env root name cfg branch fs = ⟨.error e, fs1, [], []⟩) ∧
    (∀ (env : GitEnv) (root : Path) (name : String) (cfg : Config) (branch : String)
       (fs fs1 : Fs) (herr derr : DevErr),
       validateSlotName name = none →
       fsExists fs (getSlotPath root name) = false →
       createLoop env root name (getSlotPath root name) branch cfg.repositories
         (mkdirAll fs (getSlotPath root name)) = .ok fs1 →
       runHook env .postCreate = .error herr →
       (destroyOp env root name cfg fs1).res = .error derr →
       (createOp env root name cfg branch fs).res =
         .error (.postCreateHookFailedCleanupFailed herr derr)) :=
  ⟨fun env root name cfg branch fs e fs1 hv hex hloop =>
      createOp_loop_err env root name cfg branch fs e fs1 hv hex hloop,
   fun env root name cfg branch fs fs1 herr derr hv hex hloop hpc hd =>
      createOp_hook_fail_cleanup_fail env root name cfg branch fs fs1 herr derr
        hv hex hloop hpc hd⟩

/-- Claim C5, witness: a concrete world instantiating the
silently-discarded-rollback half of the amended claim. -/
theorem claim5_witness :
    createOp
        { envAllOk with
            worktreeAddOk := fun _ _ _ => false
            removeAllFails := fun _ => true }
        ["proj"] "dev" cfgAlpha "" fsProj =
      ⟨.error (.worktreeFailed "alpha"),
       fsProj ++ [(["proj", "slots", "dev"], Node.dir)], [], []⟩ :=
  claim5_rollback_error_reporting.1
    { envAllOk with
        worktreeAddOk := fun _ _ _ => false
        removeAllFails := fun _ => true }
    ["proj"] "dev" cfgAlpha "" fsProj (.worktreeFailed "alpha")
    (fsProj ++ [(["proj", "slots", "dev"], Node.dir)])
    (by decide) (by decide) (by decide)

/-- Claim C6: `Runner.Run` is a no-op success when no file exists at
`hooks/<event>` (nothing is executed), and when a file exists without
any execute permission bit it fails with the distinct "not executable"
outcome, again without executing anything. -/
theorem claim6_hook_runner :
    (∀ execOk, runnerRun .notExist execOk = (.success, false)) ∧
    (∀ perm execOk, perm &&& 0o111 = 0 →
       runnerRun (.found perm) execOk = (.notExecutable, false)) ∧
    HookRunOutcome.notExecutable ≠ HookRunOutcome.success := by
  refine ⟨fun _ => rfl, fun perm execOk h => ?_, by decide⟩
  simp [runnerRun, h]

/-- Claim C6, witness: no hook file vs. a `0o644` (non-executable) hook
file, for a script that would exit zero if it ran. -/
theorem claim6_witness :
    runnerRun .notExist true = (.success, false) ∧
    runnerRun (.found 420) true = (.notExecutable, false) :=
  ⟨claim6_hook_runner.1 true, claim6_hook_runner.2.1 420 true (by decide)⟩

/-- Claim C7: when the slot exists and the pre-destroy hook fails,
`destroy` returns the wrapped hook failure and performs no removal at
all — the filesystem is exactly as before, no warnings are printed and
no `git worktree remove` call is issued. -/
theorem claim7_predestroy_veto (env : GitEnv) (root : Path) (name : String) (cfg : Config)
    (fs : Fs) (e : DevErr)
    (hex : fsExists fs (getSlotPath root name) = true)
    (hpd : runHook env .preDestroy = .error e) :
    destroyOp env root name cfg fs = ⟨.error (.preDestroyHookFailed e), fs, [], []⟩ := by
  unfold destroyOp
  simp only [hex, Bool.not_true, Bool.false_eq_true, if_false]
  rw [hpd]

/-- Claim C7, witness: a failing pre-destroy hook vetoes the destruction
of the existing slot `dev` and leaves the state untouched. -/
theorem claim7_witness :
    destroyOp
        { envAllOk with
            hook := fun t => match t with | .preDestroy => .execFail | _ => .noHook }
        ["proj"] "dev" cfgAlpha fsProjDev =
      ⟨.error (.preDestroyHookFailed (.hookFailed "pre-destroy")), fsProjDev, [], []⟩ :=
  claim7_predestroy_veto _ ["proj"] "dev" cfgAlpha fsProjDev
    (.hookFailed "pre-destroy") (by decide) rfl

/-- Claim C8: `reload` of an existing slot only appends — every entry of
the initial state is still present, unchanged, afterwards (including
worktrees of repositories no longer configured); when its per-repository
loop succeeds, the resulting state is exactly the initial state plus one
new worktree, on that repository's default branch, for each configured
repository whose subdirectory was missing; and the whole operation is
independent of the fetch machinery and branch-prefix configuration (no
fetch derivation). -/
theorem claim8_reload_adds_only (env : GitEnv) (root : Path) (name : String) (cfg : Config)
    (fs : Fs)
    (hplain : ∀ r ∈ cfg.repositories,
      splitSlashes r.name = [r.name] ∧ r.name ≠ "." ∧ r.name ≠ "..")
    (hnodup : (cfg.repositories.map (fun r => r.name)).Nodup)
    (hex : fsExists fs (getSlotPath root name) = true) :
    (∃ extra, (reloadOp env root name cfg fs).fs = fs ++ extra) ∧
    (∀ fs1, reloadLoop env root (getSlotPath root name) cfg.repositories fs = .ok fs1 →
       fs1 = fs ++
         (cfg.repositories.filter
            (fun r => !(fsExists fs (getSlotPath root name ++ [r.name])))).map
           (fun r => (getSlotPath root name ++ [r.name],
             Node.worktree ((env.defaultBranch (bareRepoPathOf root r)).getD ""))) ∧
       (reloadOp env root name cfg fs).fs = fs1) ∧
    (∀ (f h' : Path → Bool) (a b c : String),
       reloadOp
         { env with
             fetchOk := f
             hasRemoteOrigin := h'
             envBranchPrefixVar := a
             gitConfigPrefixVal := b
             userEmail := c }
         root name cfg fs = reloadOp env root name cfg fs) := by
  refine ⟨?_, ?_, fun f h' a b c => reloadOp_env_indep env f h' a b c root name cfg fs⟩
  · rw [reloadOp_fs_eq env root name cfg fs hex]
    exact reloadLoop_appends env root (getSlotPath root name) cfg.repositories fs
  · intro fs1 hloop
    constructor
    · have := reloadLoop_ok_eq env root (getSlotPath root name) cfg.repositories fs []
        hplain hnodup (fun r _ n h => by cases h) fs1
        (by rw [List.append_nil]; exact hloop)
      simpa using this
    · rw [reloadOp_fs_eq env root name cfg fs hex, hloop]

/-- Claim C8, witness: a slot holding only `alpha`'s worktree, reloaded
under a two-repository configuration, gains exactly `beta`'s worktree on
the default branch `main` and keeps `alpha`'s worktree unchanged. -/
theorem claim8_witness :
    (reloadOp envAllOk ["proj"] "dev" cfgAlphaBeta
        (fsProjDev ++ [(["proj", "slots", "dev", "alpha"], Node.worktree "feature/dev")])).fs
      = (fsProjDev ++ [(["proj", "slots", "dev", "alpha"], Node.worktree "feature/dev")])
        ++ [(["proj", "slots", "dev", "beta"], Node.worktree "main")] :=
  ((claim8_reload_adds_only envAllOk ["proj"] "dev" cfgAlphaBeta
      (fsProjDev ++ [(["proj", "slots", "dev", "alpha"], Node.worktree "feature/dev")])
      (by decide) (by decide) (by decide)).2.1
    ((fsProjDev ++ [(["proj", "slots", "dev", "alpha"], Node.worktree "feature/dev")])
      ++ [(["proj", "slots", "dev", "beta"], Node.worktree "main")])
    (by decide)).2

/-- Claim C9, counterexample: the code's sanitization also collapses
pre-existing hyphen runs (`"user---name"` becomes `"user-name"`, not the
claim's `"user---name"`), and the prefix derived from the identity email
is `"devslot/" ++ local-part ++ "/"`, not the bare sanitized local part
(`"alice@example.com"` yields `"devslot/alice/"`, not `"alice"`). -/
theorem claim9_counterexample :
    SanitizeBranchComponent "user---name" = "user-name" ∧
    sanitizeClaim "user---name" = "user---name" ∧
    ("user-name" : String) ≠ "user---name" ∧
    GetBranchPrefix "" "" "alice@example.com" = "devslot/alice/" ∧
    prefixClaim "" "" "alice@example.com" = "alice" ∧
    ("devslot/alice/" : String) ≠ "alice" := by decide

/-- Claim C9 (amended): the code's sanitization equals the amended
description (collapse each run of characters outside `[a-z0-9_]`,
hyphens included, to a single hyphen; trim `-`/`_` at the ends; fall
back to `"user"` when empty); the resolved prefix equals the amended
first-applicable chain whose email case is
`"devslot/" ++ sanitized-local-part ++ "/"` with fallback
`"devslot/user/"`; and every worktree that `create` without an explicit
branch adds is on the branch `<prefix><slot-name>`. -/
theorem claim9_branch_derivation :
    (∀ s, SanitizeBranchComponent s = sanitizeAmended s) ∧
    (∀ e c m, GetBranchPrefix e c m = prefixAmended e c m) ∧
    (∀ (env : GitEnv) (root : Path) (name : String) (cfg : Config) (fs : Fs)
       (p : Path) (b : String),
       (p, Node.worktree b) ∈ (createOp env root name cfg "" fs).fs →
       (p, Node.worktree b) ∈ fs ∨
         b = GetBranchPrefix env.envBranchPrefixVar env.gitConfigPrefixVal env.userEmail
               ++ name) := by
  refine ⟨sanitize_eq_amended, branchPrefix_eq_amended, ?_⟩
  intro env root name cfg fs p b hmem
  cases hv : validateSlotName name with
  | some msg =>
    rw [createOp_invalid_name env root name cfg "" fs msg hv] at hmem
    exact Or.inl hmem
  | none =>
    by_cases hex : fsExists fs (getSlotPath root name) = true
    · rw [createOp_already env root name cfg "" fs hv hex] at hmem
      exact Or.inl hmem
    · have hexf : fsExists fs (getSlotPath root name) = false := by simpa using hex
      have hmk : ∀ (q : Path) (bb : String),
          (q, Node.worktree bb) ∈ mkdirAll fs (getSlotPath root name) →
          (q, Node.worktree bb) ∈ fs := by
        intro q bb hx
        rcases mem_mkdirAll fs _ _ hx with hin | hdir
        · exact hin
        · exfalso
          injection hdir with h1 h2
          cases h2
      cases hloop : createLoop env root name (getSlotPath root name) "" cfg.repositories
          (mkdirAll fs (getSlotPath root name)) with
      | error ef =>
        obtain ⟨e', fs1⟩ := ef
        rw [createOp_loop_err env root name cfg "" fs e' fs1 hv hexf hloop] at hmem
        simp only [] at hmem
        rcases createLoop_worktree_mem env root name (getSlotPath root name)
            cfg.repositories (mkdirAll fs (getSlotPath root name)) p b
            (by rw [hloop]; exact hmem) with hin | hb
        · exact Or.inl (hmk p b hin)
        · exact Or.inr hb
      | ok fs1 =>
        cases hpc : runHook env .postCreate with
        | ok u =>
          cases u
          rw [createOp_hook_ok env root name cfg "" fs fs1 hv hexf hloop hpc] at hmem
          simp only [] at hmem
          rcases createLoop_worktree_mem env root name (getSlotPath root name)
              cfg.repositories (mkdirAll fs (getSlotPath root name)) p b
              (by rw [hloop]; exact hmem) with hin | hb
          · exact Or.inl (hmk p b hin)
          · exact Or.inr hb
        | error herr =>
          rw [createOp_hook_fail_fs env root name cfg "" fs fs1 herr
            hv hexf hloop hpc] at hmem
          have hmem1 := destroyOp_fs_subset env root name cfg fs1 _ hmem
          rcases createLoop_worktree_mem env root name (getSlotPath root name)
              cfg.repositories (mkdirAll fs (getSlotPath root name)) p b
              (by rw [hloop]; exact hmem1) with hin | hb
          · exact Or.inl (hmk p b hin)
          · exact Or.inr hb

/-- Claim C9, witness: concrete instances of all three parts — a
sanitization input, an email-derived prefix, and a worktree created by a
successful `create` on the branch `<prefix><slot-name>`. -/
theorem claim9_witness :
    SanitizeBranchComponent "User.Name" = sanitizeAmended "User.Name" ∧
    GetBranchPrefix "" "" "alice@example.com" = prefixAmended "" "" "alice@example.com" ∧
    ((["proj", "slots", "dev", "alpha"], Node.worktree "feature/dev") ∈ fsProj ∨
      "feature/dev" = GetBranchPrefix "feature/" "" "" ++ "dev") :=
  ⟨claim9_branch_derivation.1 "User.Name",
   claim9_branch_derivation.2.1 "" "" "alice@example.com",
   claim9_branch_derivation.2.2 envAllOk ["proj"] "dev" cfgAlpha fsProj
     ["proj", "slots", "dev", "alpha"] "feature/dev" (by decide)⟩

/-- Claim C10: during `destroy` of an existing slot, a directory entry
matching no repository under `repos/` (neither `<entry>.git` nor
`<entry>` is a valid repository) triggers no `git worktree remove` call
and no warning; it disappears with the final removal of the slot
directory, and `destroy` still succeeds. -/
theorem claim10_unmatched_entry (env : GitEnv) (root : Path) (name : String) (cfg : Config)
    (fs : Fs) (entry : String)
    (hex : fsExists fs (getSlotPath root name) = true)
    (hpd : runHook env .preDestroy = .ok ())
    (hrm : env.removeAllFails (getSlotPath root name) = false)
    (h3 : env.validRepo (joinPath (root ++ ["repos"]) (entry ++ ".git")) = false)
    (h4 : env.validRepo (joinPath (root ++ ["repos"]) entry) = false)
    (h6 : ∀ sn ∈ childrenOf fs (getSlotPath root name),
       splitSlashes sn.1 = [sn.1] ∧ sn.1 ≠ "." ∧ sn.1 ≠ "..") :
    (destroyOp env root name cfg fs).res = .ok () ∧
    (∀ w ∈ (destroyOp env root name cfg fs).warnings, w ≠ .removeWorktreeFailed entry) ∧
    (∀ b, GitCall.removeWorktree b (getSlotPath root name ++ [entry])
        ∉ (destroyOp env root name cfg fs).calls) ∧
    fsExists (destroyOp env root name cfg fs).fs (getSlotPath root name ++ [entry])
      = false := by
  obtain ⟨w2, hw2, hdeq⟩ := destroyOp_ok_shape env root name cfg fs hex hpd hrm
  have hbare : env.validRepo (resolveBare env root entry) = false := by
    unfold resolveBare
    simp only [h3, Bool.false_eq_true, if_false]
    exact h4
  refine ⟨?_, ?_, ?_, ?_⟩
  · rw [hdeq]
  · intro w hw
    rw [hdeq] at hw
    simp only [] at hw
    rcases List.mem_append.mp hw with hw1 | hw1
    · obtain ⟨s, hsn, hws, hvs⟩ := destroyLoop_warn_src env root (getSlotPath root name)
        (childrenOf fs (getSlotPath root name)) fs w hw1
      intro hweq
      rw [hweq] at hws
      injection hws with hse
      rw [← hse] at hvs
      rw [hvs] at hbare
      cases hbare
    · rcases hw2 with hcase | hcase <;> rw [hcase] at hw1
      · cases hw1
      · have hwp := List.mem_singleton.mp hw1
        rw [hwp]
        intro hq
        cases hq
  · intro b hb
    rw [hdeq] at hb
    simp only [] at hb
    obtain ⟨s, ⟨n, hsn⟩, hwt, hvs⟩ := destroyLoop_call_src env root (getSlotPath root name)
      (childrenOf fs (getSlotPath root name)) fs b _ hb
    have hsplain := h6 (s, n) hsn
    rw [joinPath_plain _ _ hsplain.1 hsplain.2.1 hsplain.2.2] at hwt
    have h1 := List.append_cancel_left hwt
    have hse : entry = s := by injection h1
    rw [← hse] at hvs
    rw [hvs] at hbare
    cases hbare
  · rw [hdeq]
    simp only []
    exact fsExists_removeAllFs_of_prefix _ _ _ ⟨[entry], rfl⟩

/-- Claim C10, witness: a slot containing a stray directory `stray` that
matches no repository; `destroy` succeeds, issues no removal call for
it, prints no warning about it, and the entry is gone afterwards. -/
theorem claim10_witness :
    ((destroyOp { envAllOk with validRepo := fun _ => false } ["proj"] "dev" cfgAlpha
        (fsProjDev ++ [(["proj", "slots", "dev", "stray"], Node.dir)])).res = .ok ()) ∧
    fsExists ((destroyOp { envAllOk with validRepo := fun _ => false } ["proj"] "dev"
        cfgAlpha (fsProjDev ++ [(["proj", "slots", "dev", "stray"], Node.dir)])).fs)
      (getSlotPath ["proj"] "dev" ++ ["stray"]) = false :=
  ⟨(claim10_unmatched_entry { envAllOk with validRepo := fun _ => false } ["proj"] "dev"
      cfgAlpha (fsProjDev ++ [(["proj", "slots", "dev", "stray"], Node.dir)]) "stray"
      (by decide) rfl rfl rfl rfl (by decide)).1,
   (claim10_unmatched_entry { envAllOk with validRepo := fun _ => false } ["proj"] "dev"
      cfgAlpha (fsProjDev ++ [(["proj", "slots", "dev", "stray"], Node.dir)]) "stray"
      (by decide) rfl rfl rfl rfl (by decide)).2.2.2⟩

end Devslot
